import Mathlib

set_option autoImplicit false

/-!
Shallow embedding of `src/topology_cacher.py`.

An XML document (as parsed by `xml.etree.ElementTree`) is modelled by `Elem`;
Python dicts by insertion-ordered association lists (`dictGet` / `dictSet`);
Python exceptions by `Except PyErr`.  The functions below mirror the source
line by line: `safe_element_text`, `findall_nonempty`,
`TopologyData.update_resources` (split into `admitResource`,
`processResources`, `processGroup`, `processGroups`),
`TopologyData.get_project_resource_allocations` (split into `processSubmit`,
`processERG`, `processAllocation`, `processProject`, `processProjects`),
and `TopologyData._get_data`.
-/

/-- An XML element: a tag, optional text and the list of child elements.
`ET` gives `text = None` for `<a/>` and `<a></a>`. -/
inductive Elem where
  | mk (tag : String) (text : Option String) (children : List Elem)

def Elem.tag : Elem → String
  | .mk t _ _ => t

def Elem.text : Elem → Option String
  | .mk _ x _ => x

def Elem.children : Elem → List Elem
  | .mk _ _ c => c

/-- The child elements of `e` carrying tag `t`, in document order. -/
def childrenWithTag (e : Elem) (t : String) : List Elem :=
  e.children.filter (fun c => c.tag == t)

def flatMapTag (es : List Elem) (t : String) : List Elem :=
  (es.map (fun c => childrenWithTag c t)).flatten

/-- `element.findall("./t1/t2/...")`: walk one path segment per level,
document order. -/
def Elem.findall (e : Elem) (path : List String) : List Elem :=
  path.foldl flatMapTag [e]

/-- `element.find("./t1/...")`: first match of `findall`, `None` if absent. -/
def Elem.find (e : Elem) (path : List String) : Option Elem :=
  (e.findall path).head?

deriving instance DecidableEq for Except

/-- The Python exception the indexing/joining code can actually raise:
`AttributeError` from `None.strip()` in `safe_element_text`. -/
inductive PyErr where
  | attributeError
deriving DecidableEq, Repr

/-- Python `str.strip()`: drop leading and trailing whitespace. -/
def pyStrip (s : String) : String :=
  String.mk (((s.toList.dropWhile Char.isWhitespace).reverse.dropWhile
    Char.isWhitespace).reverse)

/-- `safe_element_text(element) = getattr(element, "text", "").strip()`.
The `getattr` default `""` only applies when `element` is `None` (which has no
`text` attribute).  When the element exists but its text is `None`
(e.g. `<Name/>`), `getattr` returns `None` and `None.strip()` raises
`AttributeError`. -/
def safe_element_text : Option Elem → Except PyErr String
  | none => .ok ""
  | some e =>
    match e.text with
    | none => .error .attributeError
    | some s => .ok (pyStrip s)

/-- `findall_nonempty(elt, path) =
list(filter(None, map(safe_element_text, elt.findall(path))))`. -/
def findall_nonempty (e : Elem) (path : List String) : Except PyErr (List String) := do
  let texts ← (e.findall path).mapM (fun c => safe_element_text (some c))
  return texts.filter (fun s => s != "")

def SERVICE_ID_CE : String := "1"

def SERVICE_ID_SCHEDD : String := "109"

/-- The `ResourceInfo` namedtuple. -/
structure ResourceInfo where
  group_name : String
  name : String
  fqdn : String
  service_ids : List String
  tags : List String
deriving DecidableEq, Repr

/-- `SERVICE_ID_CE in self.service_ids`. -/
def ResourceInfo.is_ce (r : ResourceInfo) : Bool :=
  r.service_ids.contains SERVICE_ID_CE

/-- `SERVICE_ID_SCHEDD in self.service_ids`. -/
def ResourceInfo.is_schedd (r : ResourceInfo) : Bool :=
  r.service_ids.contains SERVICE_ID_SCHEDD

/-- A Python dict as an insertion-ordered association list: `d.get(k)`. -/
def dictGet {α : Type} : List (String × α) → String → Option α
  | [], _ => none
  | p :: rest, k => if p.1 = k then some p.2 else dictGet rest k

/-- `d[k] = v`: overwrite in place when the key is present (keeping its
position), otherwise append at the end — Python dict assignment. -/
def dictSet {α : Type} : List (String × α) → String → α → List (String × α)
  | [], k, v => [(k, v)]
  | p :: rest, k, v => if p.1 = k then (k, v) :: rest else p :: dictSet rest k v

/-- The four index structures rebuilt by `TopologyData.update_resources`. -/
structure TopologyData where
  resinfo_table : List ResourceInfo
  grouped_resinfo : List (String × List ResourceInfo)
  resinfo_by_name : List (String × ResourceInfo)
  resinfo_by_fqdn : List (String × ResourceInfo)
deriving DecidableEq, Repr

def emptyTopologyData : TopologyData :=
  ⟨[], [], [], []⟩

/-- Body of the inner `for eResource ...` loop of `update_resources`, up to
the construction of the record: extract `Name`, `FQDN` and the service IDs,
skip the resource (`none`) when any of them is empty, otherwise also extract
the tags and build the `ResourceInfo`. -/
def admitResource (group_name : String) (eResource : Elem) :
    Except PyErr (Option ResourceInfo) := do
  let resource_name ← safe_element_text (eResource.find ["Name"])
  let fqdn ← safe_element_text (eResource.find ["FQDN"])
  let service_ids ← findall_nonempty eResource ["Services", "Service", "ID"]
  if resource_name == "" || fqdn == "" || service_ids.isEmpty then
    return none
  else
    let tags ← findall_nonempty eResource ["Tags", "Tag"]
    return some ⟨group_name, resource_name, fqdn, service_ids, tags⟩

/-- Lines 105–108 of the source: append the new record to the table, to its
group's list, and store it under its name and FQDN. -/
def insertRecord (d : TopologyData) (r : ResourceInfo) : TopologyData :=
  { d with
    resinfo_table := d.resinfo_table ++ [r]
    grouped_resinfo :=
      dictSet d.grouped_resinfo r.group_name
        ((dictGet d.grouped_resinfo r.group_name).getD [] ++ [r])
    resinfo_by_name := dictSet d.resinfo_by_name r.name r
    resinfo_by_fqdn := dictSet d.resinfo_by_fqdn r.fqdn r }

/-- The inner `for eResource in eResourceGroup.findall("./Resources/Resource")`
loop. -/
def processResources (d : TopologyData) (group_name : String) :
    List Elem → Except PyErr TopologyData
  | [] => .ok d
  | e :: rest =>
    match admitResource group_name e with
    | .error pe => .error pe
    | .ok none => processResources d group_name rest
    | .ok (some r) => processResources (insertRecord d r) group_name rest

/-- Body of the outer `for eResourceGroup ...` loop: extract `GroupName`, skip
the group when it is empty, otherwise register `[]` under the group name and
process the group's resources. -/
def processGroup (d : TopologyData) (eResourceGroup : Elem) :
    Except PyErr TopologyData := do
  let group_name ← safe_element_text (eResourceGroup.find ["GroupName"])
  if group_name == "" then
    return d
  else
    let d' := { d with grouped_resinfo := dictSet d.grouped_resinfo group_name [] }
    processResources d' group_name (eResourceGroup.findall ["Resources", "Resource"])

/-- The outer loop over `ResourceGroup` elements. -/
def processGroups (d : TopologyData) : List Elem → Except PyErr TopologyData
  | [] => .ok d
  | g :: rest =>
    match processGroup d g with
    | .error pe => .error pe
    | .ok d' => processGroups d' rest

/-- `TopologyData.update_resources` minus the fetch: reset the four structures
(lines 77–80), then rebuild them from the `ResourceGroup` elements of the
already-fetched resource document. -/
def update_resources (d : TopologyData) (resources : Elem) :
    Except PyErr TopologyData :=
  processGroups
    { d with
      resinfo_table := []
      grouped_resinfo := []
      resinfo_by_name := []
      resinfo_by_fqdn := [] }
    (resources.findall ["ResourceGroup"])

/-- The `{fqdn, group_name, name}` projection stored in `submit_resources`. -/
structure SubmitResourceRec where
  fqdn : String
  group_name : String
  name : String
deriving DecidableEq, Repr

/-- The `{fqdn, name}` projection stored in `ces`. -/
structure CERec where
  fqdn : String
  name : String
deriving DecidableEq, Repr

/-- One `{ces, group_name, local_allocation_id}` entry of
`execute_resource_groups`. -/
structure ExecuteResourceGroupRec where
  ces : List CERec
  group_name : String
  local_allocation_id : String
deriving DecidableEq, Repr

/-- One emitted allocation dict. -/
structure AllocationRec where
  type_ : String
  submit_resources : List SubmitResourceRec
  execute_resource_groups : List ExecuteResourceGroupRec
deriving DecidableEq, Repr

/-- Body of the `for eSubmitResource in eSubmitResource_list` loop: resolve
the element's text against `resinfo_by_name`; `none` (skip) when it does not
resolve, otherwise the `{fqdn, group_name, name}` projection.  (A
`ResourceInfo` namedtuple has length 5, so `if not resinfo` only catches
`None`.) -/
def processSubmit (d : TopologyData) (eSubmitResource : Elem) :
    Except PyErr (Option SubmitResourceRec) := do
  let t ← safe_element_text (some eSubmitResource)
  match dictGet d.resinfo_by_name t with
  | none => return none
  | some resinfo => return some ⟨resinfo.fqdn, resinfo.group_name, resinfo.name⟩

/-- Body of the `for eExecuteResourceGroup ...` loop: extract `GroupName` and
`LocalAllocationID` (skip the reference if either is empty), resolve the group
against `grouped_resinfo` (skip if absent or empty — `if not resinfo_list`
catches both `None` and `[]`), then project the group's CE resources. -/
def processERG (d : TopologyData) (eExecuteResourceGroup : Elem) :
    Except PyErr (Option ExecuteResourceGroupRec) := do
  let group_name ← safe_element_text (eExecuteResourceGroup.find ["GroupName"])
  let local_allocation_id ←
    safe_element_text (eExecuteResourceGroup.find ["LocalAllocationID"])
  if group_name == "" || local_allocation_id == "" then
    return none
  else
    match dictGet d.grouped_resinfo group_name with
    | none => return none
    | some resinfo_list =>
      if resinfo_list.isEmpty then
        return none
      else
        return some
          ⟨(resinfo_list.filter (fun x => x.is_ce)).map (fun x => ⟨x.fqdn, x.name⟩),
            group_name, local_allocation_id⟩

/-- The `for eSubmitResource in eSubmitResource_list` loop: append the
projections of the references that resolve, skip the rest. -/
def submitResourcesOf (d : TopologyData) : List Elem → Except PyErr (List SubmitResourceRec)
  | [] => .ok []
  | e :: rest =>
    match processSubmit d e with
    | .error pe => .error pe
    | .ok none => submitResourcesOf d rest
    | .ok (some s) =>
      match submitResourcesOf d rest with
      | .error pe => .error pe
      | .ok l => .ok (s :: l)

/-- The `for eExecuteResourceGroup ...` loop: append the surviving group
references, skip the rest. -/
def executeResourceGroupsOf (d : TopologyData) :
    List Elem → Except PyErr (List ExecuteResourceGroupRec)
  | [] => .ok []
  | e :: rest =>
    match processERG d e with
    | .error pe => .error pe
    | .ok none => executeResourceGroupsOf d rest
    | .ok (some g) =>
      match executeResourceGroupsOf d rest with
      | .error pe => .error pe
      | .ok l => .ok (g :: l)

/-- Body of the `for eResourceAllocation ...` loop: extract `Type` and the two
reference lists; if any of the three is empty, drop the whole allocation
(`bad_ra`); otherwise emit the allocation built from whatever references
resolve. -/
def processAllocation (d : TopologyData) (eResourceAllocation : Elem) :
    Except PyErr (Option AllocationRec) := do
  let type_ ← safe_element_text (eResourceAllocation.find ["Type"])
  let eExecuteResourceGroup_list :=
    eResourceAllocation.findall ["ExecuteResourceGroups", "ExecuteResourceGroup"]
  let eSubmitResource_list :=
    eResourceAllocation.findall ["SubmitResources", "SubmitResource"]
  if type_ == "" || eExecuteResourceGroup_list.isEmpty || eSubmitResource_list.isEmpty then
    return none
  else
    let submit_resources ← submitResourcesOf d eSubmitResource_list
    let execute_resource_groups ← executeResourceGroupsOf d eExecuteResourceGroup_list
    return some ⟨type_, submit_resources, execute_resource_groups⟩

/-- The output mapping: project name → list of allocations. -/
abbrev ProjectAllocations : Type :=
  List (String × List AllocationRec)

/-- The `for eResourceAllocation ...` loop over one project's allocations:
append the allocations that survive, skip the dropped ones. -/
def allocationsOf (d : TopologyData) : List Elem → Except PyErr (List AllocationRec)
  | [] => .ok []
  | e :: rest =>
    match processAllocation d e with
    | .error pe => .error pe
    | .ok none => allocationsOf d rest
    | .ok (some a) =>
      match allocationsOf d rest with
      | .error pe => .error pe
      | .ok l => .ok (a :: l)

/-- Body of the `for eProject ...` loop: skip the project when its `Name` is
empty, otherwise store the project's surviving allocations under its name
(`ret[project_name] = allocations = []` followed by appends). -/
def processProject (d : TopologyData) (ret : ProjectAllocations) (eProject : Elem) :
    Except PyErr ProjectAllocations := do
  let project_name ← safe_element_text (eProject.find ["Name"])
  if project_name == "" then
    return ret
  else
    let allocations ←
      allocationsOf d (eProject.findall ["ResourceAllocations", "ResourceAllocation"])
    return dictSet ret project_name allocations

/-- The loop over `Project` elements. -/
def processProjects (d : TopologyData) (ret : ProjectAllocations) :
    List Elem → Except PyErr ProjectAllocations
  | [] => .ok ret
  | p :: rest =>
    match processProject d ret p with
    | .error pe => .error pe
    | .ok ret' => processProjects d ret' rest

/-- `TopologyData.get_project_resource_allocations`.  `self.projects` and
`self.resources` are `Optional[ET.Element]`; `if not self.projects or not
self.resources: return {}` uses `Element.__bool__`, which is `len(children)
!= 0` — so a parsed root with zero child elements is treated like an absent
document. -/
def get_project_resource_allocations (projects resources : Option Elem)
    (d : TopologyData) : Except PyErr ProjectAllocations :=
  match projects, resources with
  | some p, some r =>
    if p.children.isEmpty || r.children.isEmpty then
      .ok []
    else
      processProjects d [] (p.findall ["Project"])
  | _, _ => .ok []

/-- Outcome of `urlopen(...).read()`: an `EnvironmentError`, or the bytes. -/
abbrev FetchResult : Type :=
  Except Unit (List Nat)

/-- `TopologyData._get_data`, parametrised by the outcomes of its two external
collaborators: the transport (`urlopen`/`read`, which either raises an
`EnvironmentError` or yields bytes) and the XML parser (`ET.fromstring`,
which either raises `ParseError`/`UnicodeDecodeError` — `none` — or returns
the root element).  Each failure is wrapped in a `DataError` whose message
names the endpoint. -/
def get_data (endpoint : String) (fetched : FetchResult)
    (parse : List Nat → Option Elem) : Except String Elem :=
  match fetched with
  | .error _ => .error ("Topology query to " ++ endpoint ++ " failed")
  | .ok xml_bytes =>
    if xml_bytes.isEmpty then
      .error ("Topology query to " ++ endpoint ++ " returned no data")
    else
      match parse xml_bytes with
      | none => .error ("Topology query to " ++ endpoint ++ " couldn't be parsed")
      | some element => .ok element

/-- The records `update_resources` admits from a group's `Resource` elements,
in document order: well-formed resources yield their record, malformed ones
are skipped, and any `AttributeError` propagates. -/
def admittedResources (group_name : String) : List Elem → Except PyErr (List ResourceInfo)
  | [] => .ok []
  | e :: rest =>
    match admitResource group_name e with
    | .error pe => .error pe
    | .ok none => admittedResources group_name rest
    | .ok (some r) =>
      match admittedResources group_name rest with
      | .error pe => .error pe
      | .ok l => .ok (r :: l)

/-- `safe_element_text` of every element of a list, in order. -/
def elementTexts : List Elem → Except PyErr (List String)
  | [] => .ok []
  | e :: rest =>
    match safe_element_text (some e) with
    | .error pe => .error pe
    | .ok t =>
      match elementTexts rest with
      | .error pe => .error pe
      | .ok ts => .ok (t :: ts)

/-- The last element of the list satisfying `p` — the record a
last-seen-wins index keeps. -/
def lastWith {α : Type} (p : α → Bool) : List α → Option α
  | [] => none
  | x :: rest =>
    match lastWith p rest with
    | some y => some y
    | none => if p x then some x else none

/-- Insert a list of records one after the other (the successive loop
iterations of `update_resources`). -/
def applyRecords (d : TopologyData) (recs : List ResourceInfo) : TopologyData :=
  recs.foldl insertRecord d

theorem except_bind_ok {ε α β : Type} (a : α) (f : α → Except ε β) :
    (Except.ok a >>= f) = f a := rfl

theorem except_bind_error {ε α β : Type} (e : ε) (f : α → Except ε β) :
    ((Except.error e : Except ε α) >>= f) = Except.error e := rfl

theorem except_pure {ε α : Type} (a : α) : (pure a : Except ε α) = Except.ok a := rfl

theorem dictGet_dictSet_self {α : Type} (d : List (String × α)) (k : String) (v : α) :
    dictGet (dictSet d k v) k = some v := by
  induction d with
  | nil => simp [dictSet, dictGet]
  | cons p rest ih =>
    by_cases h : p.1 = k
    · simp [dictSet, h, dictGet]
    · simp [dictSet, h, dictGet, ih]

theorem dictGet_dictSet_ne {α : Type} (d : List (String × α)) (k k' : String) (v : α)
    (h : k' ≠ k) : dictGet (dictSet d k v) k' = dictGet d k' := by
  induction d with
  | nil => simp [dictSet, dictGet, Ne.symm h]
  | cons p rest ih =>
    by_cases hp : p.1 = k
    · simp [dictSet, hp, dictGet, Ne.symm h]
    · simp [dictSet, hp, dictGet, ih]

theorem mem_keys_dictSet {α : Type} (d : List (String × α)) (k x : String) (v : α) :
    x ∈ (dictSet d k v).map Prod.fst ↔ x ∈ d.map Prod.fst ∨ x = k := by
  induction d with
  | nil =>
    simp only [dictSet, List.map_cons, List.map_nil, List.mem_singleton,
      List.not_mem_nil, false_or]
  | cons p rest ih =>
    rw [show dictSet (p :: rest) k v
        = if p.1 = k then (k, v) :: rest else p :: dictSet rest k v from rfl]
    by_cases hp : p.1 = k
    · subst hp
      rw [if_pos rfl]
      simp only [List.map_cons, List.mem_cons]
      tauto
    · rw [if_neg hp]
      simp only [List.map_cons, List.mem_cons, ih]
      tauto

theorem nodup_keys_dictSet {α : Type} (d : List (String × α)) (k : String) (v : α)
    (h : (d.map Prod.fst).Nodup) : ((dictSet d k v).map Prod.fst).Nodup := by
  induction d with
  | nil => simp [dictSet]
  | cons p rest ih =>
    simp only [List.map_cons, List.nodup_cons] at h
    rw [show dictSet (p :: rest) k v
        = if p.1 = k then (k, v) :: rest else p :: dictSet rest k v from rfl]
    by_cases hp : p.1 = k
    · subst hp
      rw [if_pos rfl]
      simp only [List.map_cons, List.nodup_cons]
      exact h
    · rw [if_neg hp]
      simp only [List.map_cons, List.nodup_cons]
      refine ⟨?_, ih h.2⟩
      intro hmem
      rcases (mem_keys_dictSet rest k p.1 v).mp hmem with hm | he
      · exact h.1 hm
      · exact hp he

theorem except_map_ok {ε α β : Type} (f : α → β) (a : α) :
    Except.map f (Except.ok a : Except ε α) = Except.ok (f a) := rfl

theorem except_map_error {ε α β : Type} (f : α → β) (e : ε) :
    Except.map f (Except.error e : Except ε α) = Except.error e := rfl

/-- A record the indexer admits has the group's name and non-empty
name/FQDN/service-id fields. -/
def wfRecord (r : ResourceInfo) : Prop :=
  r.name ≠ "" ∧ r.fqdn ≠ "" ∧ r.service_ids ≠ []

theorem admitResource_def (g : String) (e : Elem) :
    admitResource g e =
      safe_element_text (e.find ["Name"]) >>= fun resource_name =>
      safe_element_text (e.find ["FQDN"]) >>= fun fqdn =>
      findall_nonempty e ["Services", "Service", "ID"] >>= fun service_ids =>
      if resource_name == "" || fqdn == "" || service_ids.isEmpty then
        pure none
      else
        findall_nonempty e ["Tags", "Tag"] >>= fun tags =>
        pure (some ⟨g, resource_name, fqdn, service_ids, tags⟩) := rfl

theorem admitResource_ok_some (g : String) (e : Elem) (r : ResourceInfo)
    (h : admitResource g e = .ok (some r)) : r.group_name = g ∧ wfRecord r := by
  rw [admitResource_def] at h
  cases h1 : safe_element_text (e.find ["Name"]) with
  | error pe => rw [h1, except_bind_error] at h; exact Except.noConfusion h
  | ok resource_name =>
    rw [h1, except_bind_ok] at h
    cases h2 : safe_element_text (e.find ["FQDN"]) with
    | error pe => rw [h2, except_bind_error] at h; exact Except.noConfusion h
    | ok fqdn =>
      rw [h2, except_bind_ok] at h
      cases h3 : findall_nonempty e ["Services", "Service", "ID"] with
      | error pe => rw [h3, except_bind_error] at h; exact Except.noConfusion h
      | ok service_ids =>
        rw [h3, except_bind_ok] at h
        by_cases hc : (resource_name == "" || fqdn == "" || service_ids.isEmpty) = true
        · rw [if_pos hc] at h
          exact Option.noConfusion (Except.ok.inj h)
        · rw [if_neg hc] at h
          cases h4 : findall_nonempty e ["Tags", "Tag"] with
          | error pe => rw [h4, except_bind_error] at h; exact Except.noConfusion h
          | ok tags =>
            rw [h4, except_bind_ok] at h
            have hr := Option.some.inj (Except.ok.inj h)
            simp only [Bool.or_eq_true, beq_iff_eq, List.isEmpty_iff] at hc
            push_neg at hc
            rw [← hr]
            exact ⟨rfl, hc.1.1, hc.1.2, hc.2⟩

theorem admittedResources_group (g : String) :
    ∀ (rs : List Elem) (recs : List ResourceInfo),
      admittedResources g rs = .ok recs →
      ∀ r ∈ recs, r.group_name = g ∧ wfRecord r := by
  intro rs
  induction rs with
  | nil =>
    intro recs h r hr
    simp only [admittedResources] at h
    rw [← Except.ok.inj h] at hr
    exact absurd hr (List.not_mem_nil r)
  | cons e rest ih =>
    intro recs h r hr
    rw [admittedResources] at h
    cases ha : admitResource g e with
    | error pe => simp only [ha] at h; exact Except.noConfusion h
    | ok o =>
      cases o with
      | none =>
        simp only [ha] at h
        exact ih recs h r hr
      | some r0 =>
        simp only [ha] at h
        cases hrest : admittedResources g rest with
        | error pe => simp only [hrest] at h; exact Except.noConfusion h
        | ok l =>
          simp only [hrest] at h
          rw [← Except.ok.inj h] at hr
          rcases List.mem_cons.mp hr with hr0 | hrl
          · rw [hr0]; exact admitResource_ok_some g e r0 ha
          · exact ih l hrest r hrl

theorem processResources_eq (g : String) :
    ∀ (rs : List Elem) (d : TopologyData),
      processResources d g rs =
        Except.map (fun recs => applyRecords d recs) (admittedResources g rs) := by
  intro rs
  induction rs with
  | nil =>
    intro d
    simp only [processResources, admittedResources, except_map_ok, applyRecords,
      List.foldl_nil]
  | cons e rest ih =>
    intro d
    cases ha : admitResource g e with
    | error pe =>
      rw [processResources, admittedResources]
      simp only [ha, except_map_error]
    | ok o =>
      cases o with
      | none =>
        rw [processResources, admittedResources]
        simp only [ha]
        exact ih d
      | some r =>
        rw [processResources, admittedResources]
        simp only [ha]
        rw [ih (insertRecord d r)]
        cases hrest : admittedResources g rest with
        | error pe => simp only [hrest, except_map_error]
        | ok l =>
          simp only [hrest, except_map_ok]
          rfl

theorem applyRecords_nil (d : TopologyData) : applyRecords d [] = d := rfl

theorem applyRecords_cons (d : TopologyData) (r : ResourceInfo) (recs : List ResourceInfo) :
    applyRecords d (r :: recs) = applyRecords (insertRecord d r) recs := rfl

theorem applyRecords_table (recs : List ResourceInfo) :
    ∀ d : TopologyData,
      (applyRecords d recs).resinfo_table = d.resinfo_table ++ recs := by
  induction recs with
  | nil => intro d; simp [applyRecords_nil]
  | cons r rest ih =>
    intro d
    rw [applyRecords_cons, ih]
    simp [insertRecord]

theorem applyRecords_by_name (recs : List ResourceInfo) :
    ∀ d : TopologyData,
      (applyRecords d recs).resinfo_by_name =
        recs.foldl (fun m r => dictSet m r.name r) d.resinfo_by_name := by
  induction recs with
  | nil => intro d; simp [applyRecords_nil]
  | cons r rest ih =>
    intro d
    rw [applyRecords_cons, ih, List.foldl_cons]
    rfl

theorem applyRecords_by_fqdn (recs : List ResourceInfo) :
    ∀ d : TopologyData,
      (applyRecords d recs).resinfo_by_fqdn =
        recs.foldl (fun m r => dictSet m r.fqdn r) d.resinfo_by_fqdn := by
  induction recs with
  | nil => intro d; simp [applyRecords_nil]
  | cons r rest ih =>
    intro d
    rw [applyRecords_cons, ih, List.foldl_cons]
    rfl

theorem applyRecords_grouped_same (g : String) (recs : List ResourceInfo)
    (hall : ∀ r ∈ recs, r.group_name = g) :
    ∀ (d : TopologyData) (l : List ResourceInfo),
      dictGet d.grouped_resinfo g = some l →
      dictGet (applyRecords d recs).grouped_resinfo g = some (l ++ recs) := by
  induction recs with
  | nil => intro d l hg; simpa [applyRecords_nil] using hg
  | cons r rest ih =>
    intro d l hg
    rw [applyRecords_cons]
    have hr : r.group_name = g := hall r (List.mem_cons_self r rest)
    have hgrp : dictGet (insertRecord d r).grouped_resinfo g = some (l ++ [r]) := by
      simp only [insertRecord, hr, hg]
      rw [dictGet_dictSet_self]
      rfl
    have := ih (fun x hx => hall x (List.mem_cons_of_mem r hx)) (insertRecord d r)
      (l ++ [r]) hgrp
    rw [this]
    simp

theorem applyRecords_grouped_other (k : String) (recs : List ResourceInfo)
    (hall : ∀ r ∈ recs, r.group_name ≠ k) :
    ∀ d : TopologyData,
      dictGet (applyRecords d recs).grouped_resinfo k = dictGet d.grouped_resinfo k := by
  induction recs with
  | nil => intro d; simp [applyRecords_nil]
  | cons r rest ih =>
    intro d
    rw [applyRecords_cons]
    rw [ih (fun x hx => hall x (List.mem_cons_of_mem r hx))]
    simp only [insertRecord]
    exact dictGet_dictSet_ne _ _ _ _ (Ne.symm (hall r (List.mem_cons_self r rest)))

theorem processGroup_eq (d : TopologyData) (gE : Elem) :
    processGroup d gE =
      safe_element_text (gE.find ["GroupName"]) >>= fun group_name =>
      if group_name == "" then pure d
      else
        Except.map
          (fun recs => applyRecords
            { d with grouped_resinfo := dictSet d.grouped_resinfo group_name [] } recs)
          (admittedResources group_name (gE.findall ["Resources", "Resource"])) := by
  rw [processGroup]
  cases ht : safe_element_text (gE.find ["GroupName"]) with
  | error pe => rw [except_bind_error, except_bind_error]
  | ok g =>
    rw [except_bind_ok, except_bind_ok]
    by_cases hg : (g == "") = true
    · rw [if_pos hg, if_pos hg]
    · rw [if_neg hg, if_neg hg]
      exact processResources_eq g (gE.findall ["Resources", "Resource"]) _

theorem processGroups_append_ok (l1 l2 : List Elem) :
    ∀ (d dfin : TopologyData), processGroups d (l1 ++ l2) = .ok dfin →
      ∃ dmid, processGroups d l1 = .ok dmid ∧ processGroups dmid l2 = .ok dfin := by
  induction l1 with
  | nil =>
    intro d dfin h
    exact ⟨d, rfl, h⟩
  | cons g rest ih =>
    intro d dfin h
    rw [List.cons_append, processGroups] at h
    rw [processGroups]
    cases hp : processGroup d g with
    | error pe => simp only [hp] at h; exact Except.noConfusion h
    | ok dm =>
      simp only [hp] at h
      simp only [hp]
      exact ih dm dfin h

/-- What one iteration of the group loop does to the state: either the group
is skipped, or its admitted records are appended after the group's slot is
reset to `[]`. -/
theorem processGroup_state (d dm : TopologyData) (gE : Elem)
    (h : processGroup d gE = .ok dm) :
    dm = d ∨
      ∃ g recs, safe_element_text (gE.find ["GroupName"]) = .ok g ∧ (g == "") = false ∧
        admittedResources g (gE.findall ["Resources", "Resource"]) = .ok recs ∧
        (∀ r ∈ recs, r.group_name = g ∧ wfRecord r) ∧
        dm = applyRecords
          { d with grouped_resinfo := dictSet d.grouped_resinfo g [] } recs := by
  rw [processGroup_eq] at h
  cases ht : safe_element_text (gE.find ["GroupName"]) with
  | error pe => rw [ht, except_bind_error] at h; exact Except.noConfusion h
  | ok g =>
    rw [ht, except_bind_ok] at h
    by_cases hg : (g == "") = true
    · rw [if_pos hg] at h
      exact Or.inl (Except.ok.inj h).symm
    · rw [if_neg hg] at h
      cases har : admittedResources g (gE.findall ["Resources", "Resource"]) with
      | error pe => rw [har, except_map_error] at h; exact Except.noConfusion h
      | ok recs =>
        rw [har, except_map_ok] at h
        exact Or.inr ⟨g, recs, rfl, (by simpa using hg),
          har, admittedResources_group g _ recs har, (Except.ok.inj h).symm⟩

theorem processGroups_preserve_key (g : String) :
    ∀ (l : List Elem) (d d' : TopologyData),
      (∀ gE ∈ l, safe_element_text (gE.find ["GroupName"]) ≠ .ok g) →
      processGroups d l = .ok d' →
      dictGet d'.grouped_resinfo g = dictGet d.grouped_resinfo g := by
  intro l
  induction l with
  | nil =>
    intro d d' _ h
    rw [processGroups] at h
    rw [← Except.ok.inj h]
  | cons gE rest ih =>
    intro d d' hnot h
    rw [processGroups] at h
    cases hp : processGroup d gE with
    | error pe => simp only [hp] at h; exact Except.noConfusion h
    | ok dm =>
      simp only [hp] at h
      rw [ih dm d' (fun x hx => hnot x (List.mem_cons_of_mem _ hx)) h]
      rcases processGroup_state d dm gE hp with heq | ⟨g', recs, ht, hge, har, hrecs, hdm⟩
      · rw [heq]
      · have hg' : g' ≠ g := by
          intro hEq
          exact hnot gE (List.mem_cons_self _ _) (hEq ▸ ht)
        have hall : ∀ r ∈ recs, r.group_name ≠ g := by
          intro r hr
          rw [(hrecs r hr).1]
          exact hg'
        rw [hdm, applyRecords_grouped_other g recs hall]
        exact dictGet_dictSet_ne _ _ _ _ (Ne.symm hg')

/-- Rebuild a by-key dict from a table: `m[key r] = r` for each record in
order. -/
def buildByKey (key : ResourceInfo → String) (t : List ResourceInfo) :
    List (String × ResourceInfo) :=
  t.foldl (fun m r => dictSet m (key r) r) []

theorem nodup_keys_foldl_dictSet (key : ResourceInfo → String) (t : List ResourceInfo) :
    ∀ m : List (String × ResourceInfo), (m.map Prod.fst).Nodup →
      (((t.foldl (fun m r => dictSet m (key r) r) m)).map Prod.fst).Nodup := by
  induction t with
  | nil => intro m hm; exact hm
  | cons r rest ih =>
    intro m hm
    rw [List.foldl_cons]
    exact ih _ (nodup_keys_dictSet m (key r) r hm)

theorem nodup_keys_buildByKey (key : ResourceInfo → String) (t : List ResourceInfo) :
    ((buildByKey key t).map Prod.fst).Nodup :=
  nodup_keys_foldl_dictSet key t [] (by simp)

theorem dictGet_foldl_dictSet (key : ResourceInfo → String) (n : String)
    (t : List ResourceInfo) :
    ∀ m : List (String × ResourceInfo),
      dictGet (t.foldl (fun m r => dictSet m (key r) r) m) n =
        match lastWith (fun r => key r == n) t with
        | some r => some r
        | none => dictGet m n := by
  induction t with
  | nil => intro m; simp [lastWith]
  | cons r rest ih =>
    intro m
    rw [List.foldl_cons, ih, lastWith]
    cases lastWith (fun r => key r == n) rest with
    | some y => rfl
    | none =>
      by_cases hk : key r = n
      · simp only [hk, beq_self_eq_true, if_pos]
        rw [← hk, dictGet_dictSet_self]
      · have hbeq : (key r == n) = false := by simpa using hk
        rw [dictGet_dictSet_ne m (key r) n r (Ne.symm hk), hbeq,
          if_neg Bool.false_ne_true]

theorem dictGet_buildByKey (key : ResourceInfo → String) (n : String)
    (t : List ResourceInfo) :
    dictGet (buildByKey key t) n = lastWith (fun r => key r == n) t := by
  rw [buildByKey, dictGet_foldl_dictSet]
  cases lastWith (fun r => key r == n) t with
  | some y => rfl
  | none => rfl

/-- The invariant relating the two by-key dicts to the table. -/
def keysInvariant (d : TopologyData) : Prop :=
  d.resinfo_by_name = buildByKey (fun r => r.name) d.resinfo_table ∧
  d.resinfo_by_fqdn = buildByKey (fun r => r.fqdn) d.resinfo_table

theorem processGroups_keysInvariant :
    ∀ (l : List Elem) (d d' : TopologyData),
      processGroups d l = .ok d' → keysInvariant d → keysInvariant d' := by
  intro l
  induction l with
  | nil =>
    intro d d' h hd
    rw [processGroups] at h
    rw [← Except.ok.inj h]
    exact hd
  | cons gE rest ih =>
    intro d d' h hd
    rw [processGroups] at h
    cases hp : processGroup d gE with
    | error pe => simp only [hp] at h; exact Except.noConfusion h
    | ok dm =>
      simp only [hp] at h
      refine ih dm d' h ?_
      rcases processGroup_state d dm gE hp with heq | ⟨g, recs, _, _, _, _, hdm⟩
      · rw [heq]; exact hd
      · constructor
        · rw [hdm, applyRecords_by_name, applyRecords_table]
          show recs.foldl (fun m r => dictSet m r.name r) d.resinfo_by_name =
            buildByKey (fun r => r.name) (d.resinfo_table ++ recs)
          rw [hd.1, buildByKey, buildByKey, List.foldl_append]
        · rw [hdm, applyRecords_by_fqdn, applyRecords_table]
          show recs.foldl (fun m r => dictSet m r.fqdn r) d.resinfo_by_fqdn =
            buildByKey (fun r => r.fqdn) (d.resinfo_table ++ recs)
          rw [hd.2, buildByKey, buildByKey, List.foldl_append]

theorem processGroups_wfTable :
    ∀ (l : List Elem) (d d' : TopologyData),
      processGroups d l = .ok d' →
      (∀ r ∈ d.resinfo_table, wfRecord r) →
      ∀ r ∈ d'.resinfo_table, wfRecord r := by
  intro l
  induction l with
  | nil =>
    intro d d' h hd
    rw [processGroups] at h
    rw [← Except.ok.inj h]
    exact hd
  | cons gE rest ih =>
    intro d d' h hd
    rw [processGroups] at h
    cases hp : processGroup d gE with
    | error pe => simp only [hp] at h; exact Except.noConfusion h
    | ok dm =>
      simp only [hp] at h
      refine ih dm d' h ?_
      rcases processGroup_state d dm gE hp with heq | ⟨g, recs, _, _, _, hrecs, hdm⟩
      · rw [heq]; exact hd
      · intro r hr
        rw [hdm, applyRecords_table] at hr
        rcases List.mem_append.mp hr with hrd | hrrecs
        · exact hd r hrd
        · exact (hrecs r hrrecs).2

def mkText (tag s : String) : Elem :=
  .mk tag (some s) []

def mkResource (n f : String) (ids : List String) : Elem :=
  .mk "Resource" none
    [mkText "Name" n, mkText "FQDN" f,
      .mk "Services" none (ids.map (fun i => .mk "Service" none [mkText "ID" i]))]

def mkGroup (g : String) (rs : List Elem) : Elem :=
  .mk "ResourceGroup" none [mkText "GroupName" g, .mk "Resources" none rs]

/-- A resource document whose only group has a present-but-empty
`<GroupName></GroupName>` element (text `None` in ElementTree). -/
def emptyNameGroupDoc : Elem :=
  .mk "ResourceSummary" none [.mk "ResourceGroup" none [.mk "GroupName" none []]]

/-- C1: the spec says building the table and the three indices never raises
for malformed sub-elements — a malformed group is skipped with a warning.  In
the code, `safe_element_text` evaluates `getattr(element, "text", "").strip()`;
for a present `GroupName` element with no text, `getattr` returns `None` and
`None.strip()` raises `AttributeError`, so `update_resources` fails instead
of skipping the group. -/
theorem claim_C1_indexing_raises_on_malformed_group :
    update_resources emptyTopologyData emptyNameGroupDoc = .error .attributeError := by
  decide

def dupR1 : ResourceInfo := ⟨"G", "r1", "f1", ["1"], []⟩

def dupR2 : ResourceInfo := ⟨"G", "r2", "f2", ["1"], []⟩

/-- Two resource groups that share the name `G`. -/
def dupGroupDoc : Elem :=
  .mk "Root" none
    [mkGroup "G" [mkResource "r1" "f1" ["1"]], mkGroup "G" [mkResource "r2" "f2" ["1"]]]

/-- C2 counterexample: in `dupGroupDoc` the first group is named `G`
(non-empty) and its resource `r1` is well-formed (the group's admitted
records are exactly `[dupR1]`), yet `by_group["G"]` is `[dupR2]` — the
record of `r1` appears in no position of `by_group["G"]`, because the second
group's `self.grouped_resinfo[group_name] = []` reset wiped the first
group's list. -/
theorem claim_C2_counterexample :
    update_resources emptyTopologyData dupGroupDoc = .ok
      ⟨[dupR1, dupR2], [("G", [dupR2])], [("r1", dupR1), ("r2", dupR2)],
        [("f1", dupR1), ("f2", dupR2)]⟩ ∧
    admittedResources "G"
      ((mkGroup "G" [mkResource "r1" "f1" ["1"]]).findall ["Resources", "Resource"])
      = .ok [dupR1] ∧
    dupR1 ∉ [dupR2] := by
  refine ⟨by decide, by decide, by decide⟩

/-- C2 (amended): for every resource document on which indexing completes
without an exception and every resource group with a non-empty name that is
the last group of that name in the document, `by_group[group name]` is
exactly the list of the group's well-formed resources' records, in document
order (malformed resources are absent), and every record in the table has
non-empty name, FQDN and service-id list.  (The amendment is forced by
duplicate group names: a non-last group with the same name has its list
overwritten, see the counterexample.) -/
theorem claim_C2_by_group_content (doc : Elem) (idx : TopologyData)
    (pre post : List Elem) (gE : Elem) (g : String)
    (hok : update_resources emptyTopologyData doc = .ok idx)
    (hsplit : doc.findall ["ResourceGroup"] = pre ++ gE :: post)
    (hname : safe_element_text (gE.find ["GroupName"]) = .ok g)
    (hg : g ≠ "")
    (hlast : ∀ gE' ∈ post, safe_element_text (gE'.find ["GroupName"]) ≠ .ok g) :
    ∃ recs, admittedResources g (gE.findall ["Resources", "Resource"]) = .ok recs ∧
      dictGet idx.grouped_resinfo g = some recs ∧
      ∀ r ∈ idx.resinfo_table, wfRecord r := by
  rw [update_resources, hsplit] at hok
  obtain ⟨d1, h1, h2⟩ := processGroups_append_ok pre (gE :: post) _ idx hok
  rw [processGroups] at h2
  cases hp : processGroup d1 gE with
  | error pe => simp only [hp] at h2; exact Except.noConfusion h2
  | ok d2 =>
    simp only [hp] at h2
    rw [processGroup_eq, hname, except_bind_ok, if_neg (by simpa using hg)] at hp
    cases har : admittedResources g (gE.findall ["Resources", "Resource"]) with
    | error pe => rw [har, except_map_error] at hp; exact Except.noConfusion hp
    | ok recs =>
      rw [har, except_map_ok] at hp
      have hd2 := (Except.ok.inj hp).symm
      refine ⟨recs, rfl, ?_, ?_⟩
      · have hall : ∀ r ∈ recs, r.group_name = g := fun r hr =>
          (admittedResources_group g _ recs har r hr).1
        have hkey : dictGet d2.grouped_resinfo g = some recs := by
          rw [hd2]
          have := applyRecords_grouped_same g recs hall
            { d1 with grouped_resinfo := dictSet d1.grouped_resinfo g [] } []
            (dictGet_dictSet_self _ _ _)
          simpa using this
        rw [processGroups_preserve_key g post d2 idx hlast h2, hkey]
      · apply processGroups_wfTable post d2 idx h2
        intro r hr
        rw [hd2, applyRecords_table] at hr
        rcases List.mem_append.mp hr with hrd | hrrecs
        · exact processGroups_wfTable pre emptyTopologyData d1 h1
            (fun r hr => absurd hr (List.not_mem_nil r)) r hrd
        · exact (admittedResources_group g _ recs har r hrrecs).2

def c2WitnessGroup : Elem :=
  mkGroup "G" [mkResource "ce1" "ce1.example.net" ["1"], mkResource " " "bad" ["1"]]

def c2WitnessDoc : Elem :=
  .mk "Root" none [c2WitnessGroup]

def c2WitnessRec : ResourceInfo :=
  ⟨"G", "ce1", "ce1.example.net", ["1"], []⟩

def c2WitnessIdx : TopologyData :=
  ⟨[c2WitnessRec], [("G", [c2WitnessRec])], [("ce1", c2WitnessRec)],
    [("ce1.example.net", c2WitnessRec)]⟩

theorem claim_C2_witness :
    ∃ recs, admittedResources "G" (c2WitnessGroup.findall ["Resources", "Resource"])
        = .ok recs ∧
      dictGet c2WitnessIdx.grouped_resinfo "G" = some recs ∧
      ∀ r ∈ c2WitnessIdx.resinfo_table, wfRecord r :=
  claim_C2_by_group_content c2WitnessDoc c2WitnessIdx [] [] c2WitnessGroup "G"
    (by decide) rfl rfl (by decide)
    (fun gE' h => absurd h (List.not_mem_nil gE'))

/-- C6: after indexing any resource document (successfully), `by_name` and
`by_fqdn` have pairwise-distinct keys (exactly one entry per key), and the
entry stored under a name (resp. FQDN) is the record of the *last* admitted
resource with that name (resp. FQDN) in document order — last-seen wins. -/
theorem claim_C6_last_seen_wins (doc : Elem) (idx : TopologyData)
    (hok : update_resources emptyTopologyData doc = .ok idx) :
    (idx.resinfo_by_name.map Prod.fst).Nodup ∧
    (idx.resinfo_by_fqdn.map Prod.fst).Nodup ∧
    (∀ n, dictGet idx.resinfo_by_name n =
      lastWith (fun r => r.name == n) idx.resinfo_table) ∧
    (∀ f, dictGet idx.resinfo_by_fqdn f =
      lastWith (fun r => r.fqdn == f) idx.resinfo_table) := by
  have hinv : keysInvariant idx := by
    rw [update_resources] at hok
    exact processGroups_keysInvariant _ _ idx hok ⟨rfl, rfl⟩
  refine ⟨?_, ?_, ?_, ?_⟩
  · rw [hinv.1]; exact nodup_keys_buildByKey _ _
  · rw [hinv.2]; exact nodup_keys_buildByKey _ _
  · intro n; rw [hinv.1, dictGet_buildByKey]
  · intro f; rw [hinv.2, dictGet_buildByKey]

def c6R1 : ResourceInfo := ⟨"G", "r", "f1", ["1"], []⟩

def c6R2 : ResourceInfo := ⟨"G", "r", "f2", ["1"], []⟩

/-- One group with two well-formed resources sharing the name `r`. -/
def c6WitnessDoc : Elem :=
  .mk "Root" none [mkGroup "G" [mkResource "r" "f1" ["1"], mkResource "r" "f2" ["1"]]]

def c6WitnessIdx : TopologyData :=
  ⟨[c6R1, c6R2], [("G", [c6R1, c6R2])], [("r", c6R2)], [("f1", c6R1), ("f2", c6R2)]⟩

theorem claim_C6_witness :
    (c6WitnessIdx.resinfo_by_name.map Prod.fst).Nodup ∧
    (c6WitnessIdx.resinfo_by_fqdn.map Prod.fst).Nodup ∧
    (∀ n, dictGet c6WitnessIdx.resinfo_by_name n =
      lastWith (fun r => r.name == n) c6WitnessIdx.resinfo_table) ∧
    (∀ f, dictGet c6WitnessIdx.resinfo_by_fqdn f =
      lastWith (fun r => r.fqdn == f) c6WitnessIdx.resinfo_table) :=
  claim_C6_last_seen_wins c6WitnessDoc c6WitnessIdx (by decide)

/-- C7: re-running indexing is an idempotent rebuild with no stale state.
`update_resources` resets the four structures before repopulating, so its
result does not depend on the pre-existing state (first conjunct: two runs
from arbitrary prior states agree — in particular a state built from an
earlier document contributes nothing), and re-indexing the same document
from a state it produced reproduces that state exactly (second conjunct). -/
theorem claim_C7_idempotent_rebuild (doc : Elem) :
    (∀ d₁ d₂ : TopologyData, update_resources d₁ doc = update_resources d₂ doc) ∧
    (∀ d i : TopologyData,
      update_resources d doc = .ok i → update_resources i doc = .ok i) := by
  constructor
  · intro d₁ d₂
    rfl
  · intro d i h
    calc update_resources i doc = update_resources d doc := rfl
    _ = .ok i := h

def sampleRec : ResourceInfo := ⟨"GroupA", "ce1", "ce1.example.net", ["1"], []⟩

def sampleDoc : Elem :=
  .mk "Root" none [mkGroup "GroupA" [mkResource "ce1" "ce1.example.net" ["1"]]]

def sampleIdx : TopologyData :=
  ⟨[sampleRec], [("GroupA", [sampleRec])], [("ce1", sampleRec)],
    [("ce1.example.net", sampleRec)]⟩

theorem claim_C7_witness :
    update_resources sampleIdx sampleDoc = .ok sampleIdx :=
  (claim_C7_idempotent_rebuild sampleDoc).2 emptyTopologyData sampleIdx (by decide)

theorem processSubmit_def (d : TopologyData) (e : Elem) :
    processSubmit d e =
      safe_element_text (some e) >>= fun t =>
      match dictGet d.resinfo_by_name t with
      | none => pure none
      | some resinfo =>
        pure (some ⟨resinfo.fqdn, resinfo.group_name, resinfo.name⟩) := rfl

theorem processERG_def (d : TopologyData) (e : Elem) :
    processERG d e =
      safe_element_text (e.find ["GroupName"]) >>= fun group_name =>
      safe_element_text (e.find ["LocalAllocationID"]) >>= fun local_allocation_id =>
      if group_name == "" || local_allocation_id == "" then
        pure none
      else
        match dictGet d.grouped_resinfo group_name with
        | none => pure none
        | some resinfo_list =>
          if resinfo_list.isEmpty then
            pure none
          else
            pure (some ⟨(resinfo_list.filter (fun x => x.is_ce)).map
              (fun x => ⟨x.fqdn, x.name⟩), group_name, local_allocation_id⟩) := rfl

theorem processAllocation_def (d : TopologyData) (e : Elem) :
    processAllocation d e =
      safe_element_text (e.find ["Type"]) >>= fun type_ =>
      if type_ == ""
          || (e.findall ["ExecuteResourceGroups", "ExecuteResourceGroup"]).isEmpty
          || (e.findall ["SubmitResources", "SubmitResource"]).isEmpty then
        pure none
      else
        submitResourcesOf d (e.findall ["SubmitResources", "SubmitResource"]) >>=
          fun submit_resources =>
        executeResourceGroupsOf d
            (e.findall ["ExecuteResourceGroups", "ExecuteResourceGroup"]) >>=
          fun execute_resource_groups =>
        pure (some ⟨type_, submit_resources, execute_resource_groups⟩) := rfl

/-- C3: per-allocation all-or-nothing validation.  Whenever processing an
allocation element completes without an exception, the allocation is dropped
(`none`) exactly when its `Type` text is empty, its execute-resource-group
reference list is empty, or its submit-resource reference list is empty; when
all three are present the allocation is emitted (`some`). -/
theorem claim_C3_all_or_nothing (d : TopologyData) (e : Elem)
    (res : Option AllocationRec) (h : processAllocation d e = .ok res) :
    res = none ↔
      ∃ ty, safe_element_text (e.find ["Type"]) = .ok ty ∧
        (ty = "" ∨ e.findall ["ExecuteResourceGroups", "ExecuteResourceGroup"] = [] ∨
          e.findall ["SubmitResources", "SubmitResource"] = []) := by
  rw [processAllocation_def] at h
  cases ht : safe_element_text (e.find ["Type"]) with
  | error pe => rw [ht, except_bind_error] at h; exact Except.noConfusion h
  | ok ty =>
    rw [ht, except_bind_ok] at h
    by_cases hc : (ty == ""
        || (e.findall ["ExecuteResourceGroups", "ExecuteResourceGroup"]).isEmpty
        || (e.findall ["SubmitResources", "SubmitResource"]).isEmpty) = true
    · rw [if_pos hc] at h
      have hres : res = none := (Except.ok.inj h).symm
      subst hres
      simp only [true_iff]
      refine ⟨ty, rfl, ?_⟩
      simpa [List.isEmpty_iff, or_assoc] using hc
    · rw [if_neg hc] at h
      cases hs : submitResourcesOf d (e.findall ["SubmitResources", "SubmitResource"]) with
      | error pe => rw [hs, except_bind_error] at h; exact Except.noConfusion h
      | ok srs =>
        rw [hs, except_bind_ok] at h
        cases hg : executeResourceGroupsOf d
            (e.findall ["ExecuteResourceGroups", "ExecuteResourceGroup"]) with
        | error pe => rw [hg, except_bind_error] at h; exact Except.noConfusion h
        | ok ergs =>
          rw [hg, except_bind_ok] at h
          have hres : res = some ⟨ty, srs, ergs⟩ := (Except.ok.inj h).symm
          subst hres
          constructor
          · intro hcon
            exact Option.noConfusion hcon
          · rintro ⟨ty', hty', hbad⟩
            exfalso
            apply hc
            have hEq : ty' = ty := (Except.ok.inj hty').symm
            subst hEq
            simpa [List.isEmpty_iff, or_assoc] using hbad

def c3AllocElem : Elem :=
  .mk "ResourceAllocation" none
    [mkText "Type" "Hosted Compute",
      .mk "ExecuteResourceGroups" none
        [.mk "ExecuteResourceGroup" none
          [mkText "GroupName" "GroupA", mkText "LocalAllocationID" "1"]],
      .mk "SubmitResources" none [mkText "SubmitResource" "ce1"]]

def c3BadAllocElem : Elem :=
  .mk "ResourceAllocation" none
    [mkText "Type" "Hosted Compute",
      .mk "SubmitResources" none [mkText "SubmitResource" "ce1"]]

theorem claim_C3_witness :
    ((none : Option AllocationRec) = none ↔
      ∃ ty, safe_element_text (c3BadAllocElem.find ["Type"]) = .ok ty ∧
        (ty = "" ∨
          c3BadAllocElem.findall ["ExecuteResourceGroups", "ExecuteResourceGroup"] = [] ∨
          c3BadAllocElem.findall ["SubmitResources", "SubmitResource"] = [])) :=
  claim_C3_all_or_nothing sampleIdx c3BadAllocElem none (by decide)

/-- The submit-resource reference an element contributes, as a function of
its (stripped) text: `None` when the name does not resolve in `by_name`. -/
def resolveSubmit (d : TopologyData) (t : String) : Option SubmitResourceRec :=
  (dictGet d.resinfo_by_name t).map (fun r => ⟨r.fqdn, r.group_name, r.name⟩)

theorem submitResourcesOf_eq (d : TopologyData) :
    ∀ l : List Elem,
      submitResourcesOf d l =
        Except.map (fun ts => ts.filterMap (resolveSubmit d)) (elementTexts l) := by
  intro l
  induction l with
  | nil => rfl
  | cons e rest ih =>
    rw [submitResourcesOf, elementTexts]
    cases htext : safe_element_text (some e) with
    | error pe =>
      have hps : processSubmit d e = .error pe := by
        rw [processSubmit_def, htext, except_bind_error]
      simp only [hps, except_map_error]
    | ok t =>
      have hps : processSubmit d e = .ok (resolveSubmit d t) := by
        rw [processSubmit_def, htext, except_bind_ok, resolveSubmit]
        cases dictGet d.resinfo_by_name t <;> rfl
      simp only [hps]
      cases hdg : resolveSubmit d t with
      | none =>
        rw [ih]
        cases hrest : elementTexts rest with
        | error pe => simp only [except_map_error]
        | ok ts => simp only [except_map_ok, List.filterMap_cons, hdg]
      | some s =>
        rw [ih]
        cases hrest : elementTexts rest with
        | error pe => simp only [except_map_error]
        | ok ts => simp only [except_map_ok, List.filterMap_cons, hdg]

/-- C4: for an allocation that passes the type/groups/submit-list presence
check and whose processing raises no exception, the allocation **is**
emitted, and its `submit_resources` are exactly the resolvable
submit-resource names' projections, in order — each unresolvable reference is
individually dropped.  In particular, when every name is unresolvable the
allocation still appears with `submit_resources = []`. -/
theorem claim_C4_unresolvable_submits (d : TopologyData) (e : Elem)
    (res : Option AllocationRec) (ty : String)
    (h : processAllocation d e = .ok res)
    (hty : safe_element_text (e.find ["Type"]) = .ok ty) (hty0 : ty ≠ "")
    (herg : e.findall ["ExecuteResourceGroups", "ExecuteResourceGroup"] ≠ [])
    (hsub : e.findall ["SubmitResources", "SubmitResource"] ≠ []) :
    ∃ a ts, res = some a ∧
      elementTexts (e.findall ["SubmitResources", "SubmitResource"]) = .ok ts ∧
      a.submit_resources = ts.filterMap (resolveSubmit d) ∧
      ((∀ t ∈ ts, dictGet d.resinfo_by_name t = none) → a.submit_resources = []) := by
  rw [processAllocation_def, hty, except_bind_ok] at h
  have hcond : (ty == ""
      || (e.findall ["ExecuteResourceGroups", "ExecuteResourceGroup"]).isEmpty
      || (e.findall ["SubmitResources", "SubmitResource"]).isEmpty) = false := by
    simp [List.isEmpty_iff, hty0, herg, hsub]
  rw [hcond, if_neg Bool.false_ne_true] at h
  rw [submitResourcesOf_eq] at h
  cases hts : elementTexts (e.findall ["SubmitResources", "SubmitResource"]) with
  | error pe => rw [hts, except_map_error, except_bind_error] at h
                exact Except.noConfusion h
  | ok ts =>
    rw [hts, except_map_ok, except_bind_ok] at h
    cases hg : executeResourceGroupsOf d
        (e.findall ["ExecuteResourceGroups", "ExecuteResourceGroup"]) with
    | error pe => rw [hg, except_bind_error] at h; exact Except.noConfusion h
    | ok ergs =>
      rw [hg, except_bind_ok] at h
      refine ⟨⟨ty, ts.filterMap (resolveSubmit d), ergs⟩, ts,
        (Except.ok.inj h).symm, rfl, rfl, ?_⟩
      intro hall
      apply List.filterMap_eq_nil_iff.mpr
      intro t htmem
      rw [resolveSubmit, hall t htmem]
      rfl

def c4Elem : Elem :=
  .mk "ResourceAllocation" none
    [mkText "Type" "Hosted Compute",
      .mk "ExecuteResourceGroups" none
        [.mk "ExecuteResourceGroup" none
          [mkText "GroupName" "GroupA", mkText "LocalAllocationID" "1"]],
      .mk "SubmitResources" none
        [mkText "SubmitResource" "nosuch1", mkText "SubmitResource" "nosuch2"]]

theorem claim_C4_witness :
    ∃ a ts, (some (AllocationRec.mk "Hosted Compute" []
        [⟨[⟨"ce1.example.net", "ce1"⟩], "GroupA", "1"⟩]) : Option AllocationRec) = some a ∧
      elementTexts (c4Elem.findall ["SubmitResources", "SubmitResource"]) = .ok ts ∧
      a.submit_resources = ts.filterMap (resolveSubmit sampleIdx) ∧
      ((∀ t ∈ ts, dictGet sampleIdx.resinfo_by_name t = none) →
        a.submit_resources = []) :=
  claim_C4_unresolvable_submits sampleIdx c4Elem
    (some (AllocationRec.mk "Hosted Compute" []
      [⟨[⟨"ce1.example.net", "ce1"⟩], "GroupA", "1"⟩]))
    "Hosted Compute" (by decide) (by decide) (by decide)
    (fun hnil => absurd (congrArg List.length hnil) (by decide))
    (fun hnil => absurd (congrArg List.length hnil) (by decide))

theorem is_ce_eq_mem (r : ResourceInfo) :
    r.is_ce = decide (SERVICE_ID_CE ∈ r.service_ids) :=
  List.elem_eq_mem SERVICE_ID_CE r.service_ids

/-- C5: every emitted execute-resource-group reference carries as `ces`
exactly the projections of the group's indexed resources whose `service_ids`
contain `"1"` (the CE service id), in the group's stored order; a resource
whose `service_ids` contain `"109"` (Schedd) but not `"1"` contributes
nothing to `ces`. -/
theorem claim_C5_ces_filter (d : TopologyData) (e : Elem)
    (erg : ExecuteResourceGroupRec) (h : processERG d e = .ok (some erg)) :
    ∃ resinfo_list,
      dictGet d.grouped_resinfo erg.group_name = some resinfo_list ∧
      erg.ces = (resinfo_list.filter
          (fun r => decide (SERVICE_ID_CE ∈ r.service_ids))).map
        (fun r => (⟨r.fqdn, r.name⟩ : CERec)) ∧
      ∀ r ∈ resinfo_list, SERVICE_ID_SCHEDD ∈ r.service_ids →
        SERVICE_ID_CE ∉ r.service_ids →
        r ∉ resinfo_list.filter (fun r => decide (SERVICE_ID_CE ∈ r.service_ids)) := by
  rw [processERG_def] at h
  cases hg : safe_element_text (e.find ["GroupName"]) with
  | error pe => rw [hg, except_bind_error] at h; exact Except.noConfusion h
  | ok group_name =>
    rw [hg, except_bind_ok] at h
    cases hl : safe_element_text (e.find ["LocalAllocationID"]) with
    | error pe => rw [hl, except_bind_error] at h; exact Except.noConfusion h
    | ok local_allocation_id =>
      rw [hl, except_bind_ok] at h
      by_cases hc : (group_name == "" || local_allocation_id == "") = true
      · rw [if_pos hc] at h
        exact Option.noConfusion (Except.ok.inj h)
      · rw [if_neg hc] at h
        cases hdg : dictGet d.grouped_resinfo group_name with
        | none =>
          simp only [hdg] at h
          exact Option.noConfusion (Except.ok.inj h)
        | some resinfo_list =>
          simp only [hdg] at h
          by_cases hne : resinfo_list.isEmpty = true
          · rw [if_pos hne] at h
            exact Option.noConfusion (Except.ok.inj h)
          · rw [if_neg hne] at h
            have herg : erg = ⟨(resinfo_list.filter (fun x => x.is_ce)).map
                (fun x => ⟨x.fqdn, x.name⟩), group_name, local_allocation_id⟩ :=
              (Option.some.inj (Except.ok.inj h)).symm
            refine ⟨resinfo_list, ?_, ?_, ?_⟩
            · rw [herg]
              exact hdg
            · rw [herg]
              have : (fun (x : ResourceInfo) => x.is_ce) =
                  fun r => decide (SERVICE_ID_CE ∈ r.service_ids) := by
                funext r
                exact is_ce_eq_mem r
              rw [this]
            · intro r hr hschedd hnotce
              intro hmem
              have := (List.mem_filter.mp hmem).2
              rw [decide_eq_true_iff] at this
              exact hnotce this

def c5Rec1 : ResourceInfo := ⟨"GroupB", "ce", "ce.example.net", ["1"], []⟩

def c5Rec2 : ResourceInfo := ⟨"GroupB", "schedd", "schedd.example.net", ["109"], []⟩

def c5Idx : TopologyData :=
  ⟨[c5Rec1, c5Rec2], [("GroupB", [c5Rec1, c5Rec2])],
    [("ce", c5Rec1), ("schedd", c5Rec2)],
    [("ce.example.net", c5Rec1), ("schedd.example.net", c5Rec2)]⟩

def c5ErgElem : Elem :=
  .mk "ExecuteResourceGroup" none
    [mkText "GroupName" "GroupB", mkText "LocalAllocationID" "2"]

def c5Erg : ExecuteResourceGroupRec :=
  ⟨[⟨"ce.example.net", "ce"⟩], "GroupB", "2"⟩

theorem claim_C5_witness :
    ∃ resinfo_list,
      dictGet c5Idx.grouped_resinfo c5Erg.group_name = some resinfo_list ∧
      c5Erg.ces = (resinfo_list.filter
          (fun r => decide (SERVICE_ID_CE ∈ r.service_ids))).map
        (fun r => (⟨r.fqdn, r.name⟩ : CERec)) ∧
      ∀ r ∈ resinfo_list, SERVICE_ID_SCHEDD ∈ r.service_ids →
        SERVICE_ID_CE ∉ r.service_ids →
        r ∉ resinfo_list.filter (fun r => decide (SERVICE_ID_CE ∈ r.service_ids)) :=
  claim_C5_ces_filter c5Idx c5ErgElem c5Erg (by decide)

theorem processProject_def (d : TopologyData) (ret : ProjectAllocations) (eP : Elem) :
    processProject d ret eP =
      safe_element_text (eP.find ["Name"]) >>= fun project_name =>
      if project_name == "" then pure ret
      else
        allocationsOf d (eP.findall ["ResourceAllocations", "ResourceAllocation"]) >>=
          fun allocations => pure (dictSet ret project_name allocations) := rfl

theorem processProjects_append_ok (d : TopologyData) (l1 l2 : List Elem) :
    ∀ (ret rfin : ProjectAllocations), processProjects d ret (l1 ++ l2) = .ok rfin →
      ∃ rmid, processProjects d ret l1 = .ok rmid ∧
        processProjects d rmid l2 = .ok rfin := by
  induction l1 with
  | nil =>
    intro ret rfin h
    exact ⟨ret, rfl, h⟩
  | cons e rest ih =>
    intro ret rfin h
    rw [List.cons_append, processProjects] at h
    rw [processProjects]
    cases hp : processProject d ret e with
    | error pe => simp only [hp] at h; exact Except.noConfusion h
    | ok rmid0 =>
      simp only [hp] at h
      simp only [hp]
      exact ih rmid0 rfin h

/-- What one iteration of the project loop does to the result dict. -/
theorem processProject_state (d : TopologyData) (ret ret' : ProjectAllocations)
    (eP : Elem) (h : processProject d ret eP = .ok ret') :
    ret' = ret ∨
      ∃ n allocs, safe_element_text (eP.find ["Name"]) = .ok n ∧ (n == "") = false ∧
        allocationsOf d (eP.findall ["ResourceAllocations", "ResourceAllocation"])
          = .ok allocs ∧
        ret' = dictSet ret n allocs := by
  rw [processProject_def] at h
  cases ht : safe_element_text (eP.find ["Name"]) with
  | error pe => rw [ht, except_bind_error] at h; exact Except.noConfusion h
  | ok n =>
    rw [ht, except_bind_ok] at h
    by_cases hn : (n == "") = true
    · rw [if_pos hn] at h
      exact Or.inl (Except.ok.inj h).symm
    · rw [if_neg hn] at h
      cases ha : allocationsOf d (eP.findall ["ResourceAllocations", "ResourceAllocation"]) with
      | error pe => rw [ha, except_bind_error] at h; exact Except.noConfusion h
      | ok allocs =>
        rw [ha, except_bind_ok] at h
        exact Or.inr ⟨n, allocs, rfl, (by simpa using hn), rfl, (Except.ok.inj h).symm⟩

theorem processProjects_preserve_key (d : TopologyData) (n : String) :
    ∀ (l : List Elem) (ret ret' : ProjectAllocations),
      (∀ e ∈ l, safe_element_text (e.find ["Name"]) ≠ .ok n) →
      processProjects d ret l = .ok ret' →
      dictGet ret' n = dictGet ret n := by
  intro l
  induction l with
  | nil =>
    intro ret ret' _ h
    rw [processProjects] at h
    rw [← Except.ok.inj h]
  | cons e rest ih =>
    intro ret ret' hnot h
    rw [processProjects] at h
    cases hp : processProject d ret e with
    | error pe => simp only [hp] at h; exact Except.noConfusion h
    | ok rmid =>
      simp only [hp] at h
      rw [ih rmid ret' (fun x hx => hnot x (List.mem_cons_of_mem _ hx)) h]
      rcases processProject_state d ret rmid e hp with heq | ⟨n', allocs, ht, _, _, hmid⟩
      · rw [heq]
      · have hne : n ≠ n' := by
          intro hEq
          exact hnot e (List.mem_cons_self _ _) (hEq ▸ ht)
        rw [hmid]
        exact dictGet_dictSet_ne _ _ _ _ hne

theorem processProjects_nodup_keys (d : TopologyData) :
    ∀ (l : List Elem) (ret ret' : ProjectAllocations),
      processProjects d ret l = .ok ret' →
      (ret.map Prod.fst).Nodup → (ret'.map Prod.fst).Nodup := by
  intro l
  induction l with
  | nil =>
    intro ret ret' h hn
    rw [processProjects] at h
    rw [← Except.ok.inj h]
    exact hn
  | cons e rest ih =>
    intro ret ret' h hn
    rw [processProjects] at h
    cases hp : processProject d ret e with
    | error pe => simp only [hp] at h; exact Except.noConfusion h
    | ok rmid =>
      simp only [hp] at h
      refine ih rmid ret' h ?_
      rcases processProject_state d ret rmid e hp with heq | ⟨n', allocs, _, _, _, hmid⟩
      · rw [heq]; exact hn
      · rw [hmid]
        exact nodup_keys_dictSet ret n' allocs hn

theorem findall_single_of_children_nil (p : Elem) (t : String) (h : p.children = []) :
    p.findall [t] = [] := by
  simp [Elem.findall, flatMapTag, childrenWithTag, h]

def mkProject (n : String) (allocs : List Elem) : Elem :=
  .mk "Project" none [mkText "Name" n, .mk "ResourceAllocations" none allocs]

/-- A project document with two `Project` elements both named `P`. -/
def c9DupDoc : Elem :=
  .mk "Projects" none [mkProject "P" [c3AllocElem], mkProject "P" []]

/-- C9 counterexample: `c9DupDoc` contains two Project elements with the same
non-empty name `P`, yet when the resource document's root has zero child
elements the join takes the `if not self.projects or not self.resources`
early return and the output is the empty mapping — it contains no entry for
`P` at all, not exactly one. -/
theorem claim_C9_counterexample :
    get_project_resource_allocations (some c9DupDoc)
        (some (.mk "ResourceSummary" none [])) sampleIdx = .ok [] ∧
    dictGet ([] : ProjectAllocations) "P" = none :=
  ⟨rfl, rfl⟩

/-- C9 (amended): if the join does not take the empty-document early return
(the resource root has at least one child) and completes without an
exception, then for a project name `n` the output has pairwise-distinct keys
(exactly one entry per name) and the entry under `n` is exactly the
allocation list of the **last** `Project` element named `n` in document
order — the earlier duplicate's allocations are absent. -/
theorem claim_C9_last_project_wins (p r : Elem) (d : TopologyData)
    (ret : ProjectAllocations)
    (hok : get_project_resource_allocations (some p) (some r) d = .ok ret)
    (hr : r.children ≠ [])
    (pre post : List Elem) (eP : Elem) (n : String)
    (hsplit : p.findall ["Project"] = pre ++ eP :: post)
    (hname : safe_element_text (eP.find ["Name"]) = .ok n) (hn : n ≠ "")
    (hlast : ∀ e' ∈ post, safe_element_text (e'.find ["Name"]) ≠ .ok n) :
    (ret.map Prod.fst).Nodup ∧
    ∃ allocs,
      allocationsOf d (eP.findall ["ResourceAllocations", "ResourceAllocation"])
        = .ok allocs ∧
      dictGet ret n = some allocs := by
  have hp : p.children ≠ [] := by
    intro hnil
    rw [findall_single_of_children_nil p "Project" hnil] at hsplit
    have := List.append_eq_nil.mp hsplit.symm
    exact List.cons_ne_nil eP post this.2
  simp only [get_project_resource_allocations] at hok
  have hcond : (p.children.isEmpty || r.children.isEmpty) = false := by
    simp [List.isEmpty_iff, hp, hr]
  rw [hcond, if_neg Bool.false_ne_true] at hok
  rw [hsplit] at hok
  have hnodup := processProjects_nodup_keys d (pre ++ eP :: post) [] ret hok (by simp)
  obtain ⟨r1, h1, h2⟩ := processProjects_append_ok d pre (eP :: post) [] ret hok
  rw [processProjects] at h2
  cases hpp : processProject d r1 eP with
  | error pe => simp only [hpp] at h2; exact Except.noConfusion h2
  | ok r2 =>
    simp only [hpp] at h2
    rw [processProject_def, hname, except_bind_ok, if_neg (by simpa using hn)] at hpp
    cases ha : allocationsOf d (eP.findall ["ResourceAllocations", "ResourceAllocation"]) with
    | error pe => rw [ha, except_bind_error] at hpp; exact Except.noConfusion hpp
    | ok allocs =>
      rw [ha, except_bind_ok] at hpp
      have hr2 : r2 = dictSet r1 n allocs := (Except.ok.inj hpp).symm
      refine ⟨hnodup, allocs, rfl, ?_⟩
      rw [processProjects_preserve_key d n post r2 ret hlast h2, hr2,
        dictGet_dictSet_self]

def c9WitnessProj1 : Elem := mkProject "P" [c3AllocElem]

def c9WitnessProj2 : Elem := mkProject "P" []

def c9WitnessDoc : Elem := .mk "Projects" none [c9WitnessProj1, c9WitnessProj2]

theorem claim_C9_witness :
    (([("P", ([] : List AllocationRec))].map Prod.fst)).Nodup ∧
    ∃ allocs,
      allocationsOf sampleIdx
          (c9WitnessProj2.findall ["ResourceAllocations", "ResourceAllocation"])
        = .ok allocs ∧
      dictGet [("P", ([] : List AllocationRec))] "P" = some allocs :=
  claim_C9_last_project_wins c9WitnessDoc sampleDoc sampleIdx
    [("P", [])] (by decide)
    (fun h => absurd (congrArg List.length h) (by decide))
    [c9WitnessProj1] [] c9WitnessProj2 "P" rfl rfl (by decide)
    (fun e' h => absurd h (List.not_mem_nil e'))

/-- C10: when either fetched document parses to a root element with zero
child elements, `Element.__bool__` makes `not self.projects or not
self.resources` true and the join returns the empty mapping — exactly the
result produced when a document is absent (`None`) — for every state of the
resource indices, including non-empty ones. -/
theorem claim_C10_empty_root_empty_join (p r : Elem) (d : TopologyData)
    (h : p.children = [] ∨ r.children = []) :
    get_project_resource_allocations (some p) (some r) d = .ok [] ∧
    get_project_resource_allocations none (some r) d = .ok [] ∧
    get_project_resource_allocations (some p) none d = .ok [] := by
  refine ⟨?_, rfl, rfl⟩
  have hcond : (p.children.isEmpty || r.children.isEmpty) = true := by
    rcases h with h | h <;> simp [h]
  show (if p.children.isEmpty || r.children.isEmpty then Except.ok []
    else processProjects d [] (p.findall ["Project"])) = .ok []
  rw [hcond]
  rfl

theorem claim_C10_witness :
    get_project_resource_allocations (some (.mk "Projects" none []))
        (some sampleDoc) sampleIdx = .ok [] ∧
    get_project_resource_allocations none (some sampleDoc) sampleIdx = .ok [] ∧
    get_project_resource_allocations (some (.mk "Projects" none [])) none
        sampleIdx = .ok [] :=
  claim_C10_empty_root_empty_join (.mk "Projects" none []) sampleDoc sampleIdx
    (Or.inl rfl)

/-- C8: `_get_data` (with the transport and XML parser as external
collaborators) raises a `DataError` naming the endpoint in exactly three
cases — the fetch raises an `EnvironmentError`, the body is empty, or the
body does not parse — and otherwise returns the parsed root element. -/
theorem claim_C8_get_data (endpoint : String) (fetched : FetchResult)
    (parse : List Nat → Option Elem) :
    (∀ u, fetched = .error u →
      get_data endpoint fetched parse =
        .error ("Topology query to " ++ endpoint ++ " failed")) ∧
    (∀ b, fetched = .ok b → b = [] →
      get_data endpoint fetched parse =
        .error ("Topology query to " ++ endpoint ++ " returned no data")) ∧
    (∀ b, fetched = .ok b → b ≠ [] → parse b = none →
      get_data endpoint fetched parse =
        .error ("Topology query to " ++ endpoint ++ " couldn't be parsed")) ∧
    (∀ b el, fetched = .ok b → b ≠ [] → parse b = some el →
      get_data endpoint fetched parse = .ok el) ∧
    (∀ msg, get_data endpoint fetched parse = .error msg →
      endpoint.data <:+: msg.data) := by
  refine ⟨?_, ?_, ?_, ?_, ?_⟩
  · intro u hf
    rw [get_data.eq_def, hf]
  · intro b hf hb
    rw [get_data.eq_def, hf, hb]
    rfl
  · intro b hf hb hp
    have hbe : b.isEmpty = false := by simpa [List.isEmpty_iff] using hb
    simp only [get_data.eq_def, hf, hbe, if_neg Bool.false_ne_true, hp]
  · intro b el hf hb hp
    have hbe : b.isEmpty = false := by simpa [List.isEmpty_iff] using hb
    simp only [get_data.eq_def, hf, hbe, if_neg Bool.false_ne_true, hp]
  · intro msg hmsg
    rw [get_data.eq_def] at hmsg
    cases hf : fetched with
    | error u =>
      simp only [hf] at hmsg
      rw [← Except.error.inj hmsg]
      exact ⟨"Topology query to ".data, " failed".data, rfl⟩
    | ok b =>
      simp only [hf] at hmsg
      by_cases hb : b.isEmpty = true
      · rw [if_pos hb] at hmsg
        rw [← Except.error.inj hmsg]
        exact ⟨"Topology query to ".data, " returned no data".data, rfl⟩
      · rw [if_neg hb] at hmsg
        cases hp : parse b with
        | none =>
          simp only [hp] at hmsg
          rw [← Except.error.inj hmsg]
          exact ⟨"Topology query to ".data, " couldn't be parsed".data, rfl⟩
        | some el =>
          simp only [hp] at hmsg
          exact Except.noConfusion hmsg

theorem claim_C8_witness :
    get_data "/rgsummary/xml" (.error ()) (fun _ => none) =
      .error "Topology query to /rgsummary/xml failed" :=
  (claim_C8_get_data "/rgsummary/xml" (.error ()) (fun _ => none)).1 () rfl
